import Mathlib

/-!
Verification of the review orchestration engine of the `revi` repository.

The Go source is shallowly embedded: Go strings become `List Char`
(the inputs relevant here are byte-per-character), Go slices become
`List`, nilable pointers become `Option`, fallible functions return
`Except`, and the concurrent fan-out of the review runner is modelled
by an explicit completion-order permutation driving the writes into the
pre-allocated result array.
-/

namespace Revi

/-! ## Data model (internal/review/types.go) -/

/-- Go `review.Mode` is a string type. -/
abbrev Mode := String

/-- Go `review.Status` is a string type. -/
abbrev Status := String

def StatusPending : Status := "pending"

def StatusRunning : Status := "running"

def StatusDone : Status := "done"

def StatusFailed : Status := "failed"

def StatusIssues : Status := "issues_found"

def StatusNoIssues : Status := "no_issues"

/-- Go `review.Issue`: severity, description, optional location. -/
structure Issue where
  severity : String
  description : String
  location : String
deriving DecidableEq, Repr

/-- Go `review.Result`: one review outcome per mode. -/
structure Result where
  mode : Mode
  status : Status
  summary : String
  issues : List Issue
  suggestions : List String
  error : String
deriving DecidableEq, Repr

/-- Go `(*Result).HasHighSeverityIssues`: true iff some issue has severity "high". -/
def Result.hasHighSeverityIssues (r : Result) : Bool :=
  r.issues.any (fun i => i.severity == "high")

/-! ## Parallel review runner (internal/review, `Runner.Run`)

`Run` pre-allocates `results := make([]*Result, len(modes))` and spawns one
goroutine per mode; goroutine `idx` computes its outcome and writes it to
`results[idx]`.  The scheduler is modelled by a completion order: a list of
indices giving the order in which the goroutines commit their writes.  A
full run corresponds to any permutation of `List.range modes.length`. -/

/-- The result synthesized by `Runner.Run` when the injected review function
returns an error: status "failed" and the error text, all other fields zero. -/
def failedResult (m : Mode) (msg : String) : Result :=
  { mode := m, status := StatusFailed, summary := "", issues := [], suggestions := [], error := msg }

/-- The outcome goroutine for mode `m` stores: the review function's result,
or the synthesized failed result. -/
def taskOutcome (reviewFunc : Mode → String → Except String Result) (diff : String)
    (m : Mode) : Result :=
  match reviewFunc m diff with
  | .ok r => r
  | .error e => failedResult m e

/-- One committed write of goroutine `idx` into the result array. -/
def runnerWrite (reviewFunc : Mode → String → Except String Result) (diff : String)
    (modes : List Mode) (acc : List (Option Result)) (idx : Nat) : List (Option Result) :=
  match modes[idx]? with
  | some m => acc.set idx (some (taskOutcome reviewFunc diff m))
  | none => acc

/-- Go `Runner.Run` observed after all goroutines committed in order `order`:
the pre-allocated nil array receives each task's outcome at the task's own
index.  `Run` itself returns this array (it cannot return an error). -/
def runnerRun (reviewFunc : Mode → String → Except String Result) (modes : List Mode)
    (diff : String) (order : List Nat) : List (Option Result) :=
  order.foldl (runnerWrite reviewFunc diff modes) (List.replicate modes.length none)

theorem runnerWrite_length (f : Mode → String → Except String Result) (diff : String)
    (modes : List Mode) (acc : List (Option Result)) (idx : Nat) :
    (runnerWrite f diff modes acc idx).length = acc.length := by
  unfold runnerWrite
  cases modes[idx]? <;> simp

theorem runnerRun_foldl_length (f : Mode → String → Except String Result) (diff : String)
    (modes : List Mode) (order : List Nat) (acc : List (Option Result)) :
    (order.foldl (runnerWrite f diff modes) acc).length = acc.length := by
  induction order generalizing acc with
  | nil => rfl
  | cons x rest ih => simp [List.foldl_cons, ih, runnerWrite_length]

theorem runnerRun_foldl_notmem (f : Mode → String → Except String Result) (diff : String)
    (modes : List Mode) (order : List Nat) (acc : List (Option Result)) (i : Nat)
    (hni : i ∉ order) :
    (order.foldl (runnerWrite f diff modes) acc)[i]? = acc[i]? := by
  induction order generalizing acc with
  | nil => rfl
  | cons x rest ih =>
    simp only [List.mem_cons, not_or] at hni
    rw [List.foldl_cons, ih _ hni.2]
    unfold runnerWrite
    cases modes[x]? with
    | none => rfl
    | some m => exact List.getElem?_set_ne (Ne.symm hni.1)

theorem runnerRun_foldl_mem (f : Mode → String → Except String Result) (diff : String)
    (modes : List Mode) (order : List Nat) (acc : List (Option Result)) (i : Nat) (m : Mode)
    (hm : modes[i]? = some m) (hlen : acc.length = modes.length) (hmem : i ∈ order) :
    (order.foldl (runnerWrite f diff modes) acc)[i]? = some (some (taskOutcome f diff m)) := by
  induction order generalizing acc with
  | nil => cases hmem
  | cons x rest ih =>
    rw [List.foldl_cons]
    by_cases hr : i ∈ rest
    · exact ih _ (by rw [runnerWrite_length]; exact hlen) hr
    · have hxi : x = i := by
        rcases List.mem_cons.mp hmem with h | h
        · exact h.symm
        · exact absurd h hr
      subst hxi
      rw [runnerRun_foldl_notmem f diff modes rest _ x hr]
      unfold runnerWrite
      rw [hm]
      have hx : x < acc.length := by
        rw [hlen]
        exact (List.getElem?_eq_some.mp hm).1
      exact List.getElem?_set_eq_of_lt _ hx

theorem taskOutcome_mode (f : Mode → String → Except String Result) (diff : String) (m : Mode)
    (hmode : ∀ d r, f m d = .ok r → r.mode = m) :
    (taskOutcome f diff m).mode = m := by
  unfold taskOutcome
  cases h : f m diff with
  | ok r => exact hmode diff r h
  | error e => rfl

/-- C1: for every mode list and every completion-order permutation of the
per-mode tasks, `Runner.Run` returns a list of length `modes.length` whose
`i`-th slot holds a result for mode `modes[i]` — provided the injected review
function reports results under the mode it was called with (which the
production review function always does). -/
theorem c1_runner_output_order (f : Mode → String → Except String Result)
    (modes : List Mode) (diff : String) (order : List Nat)
    (hperm : order.Perm (List.range modes.length))
    (hmode : ∀ m d r, f m d = .ok r → r.mode = m) :
    (runnerRun f modes diff order).length = modes.length ∧
      ∀ i, i < modes.length → ∃ r : Result,
        (runnerRun f modes diff order)[i]? = some (some r) ∧ modes[i]? = some r.mode := by
  constructor
  · rw [runnerRun, runnerRun_foldl_length]
    exact List.length_replicate _ _
  · intro i hi
    have hmem : i ∈ order := hperm.mem_iff.mpr (List.mem_range.mpr hi)
    have hm : modes[i]? = some modes[i] := List.getElem?_eq_getElem hi
    refine ⟨taskOutcome f diff modes[i], ?_, ?_⟩
    · exact runnerRun_foldl_mem f diff modes order _ i _ hm (List.length_replicate _ _) hmem
    · rw [hm, taskOutcome_mode f diff _ (fun d r h => hmode _ d r h)]

/-- Review function used in concrete instantiations: echoes the mode back. -/
def okReviewFunc : Mode → String → Except String Result :=
  fun m _ => .ok { mode := m, status := StatusNoIssues, summary := "ok", issues := [],
                   suggestions := [], error := "" }

theorem c1_runner_output_order_witness :
    (runnerRun okReviewFunc ["security", "style"] "d" [1, 0]).length = 2 ∧
      ∃ r : Result, (runnerRun okReviewFunc ["security", "style"] "d" [1, 0])[0]? = some (some r) ∧
        (["security", "style"] : List Mode)[0]? = some r.mode := by
  have h := c1_runner_output_order okReviewFunc ["security", "style"] "d" [1, 0]
    (by decide) (fun m d r hr => by cases hr; rfl)
  exact ⟨h.1, h.2 0 (by decide)⟩

/-- C2: if the review function fails for the mode at index `i`, `Runner.Run`
stores at index `i` the synthesized failed result carrying the error text,
while every other slot still holds the outcome of its own task (the failure
affects no sibling), and `Run` still returns the full array (no error reaches
the caller). -/
theorem c2_runner_failure_isolated (f : Mode → String → Except String Result)
    (modes : List Mode) (diff : String) (order : List Nat)
    (hperm : order.Perm (List.range modes.length))
    (i : Nat) (m : Mode) (e : String) (hm : modes[i]? = some m)
    (hfail : f m diff = .error e) :
    (runnerRun f modes diff order)[i]? = some (some (failedResult m e)) ∧
      ∀ (j : Nat) (mj : Mode), modes[j]? = some mj →
        (runnerRun f modes diff order)[j]? = some (some (taskOutcome f diff mj)) := by
  have hget : ∀ (j : Nat) (mj : Mode), modes[j]? = some mj →
      (runnerRun f modes diff order)[j]? = some (some (taskOutcome f diff mj)) := by
    intro j mj hmj
    have hj : j < modes.length := (List.getElem?_eq_some.mp hmj).1
    have hmem : j ∈ order := hperm.mem_iff.mpr (List.mem_range.mpr hj)
    exact runnerRun_foldl_mem f diff modes order _ j _ hmj (List.length_replicate _ _) hmem
  refine ⟨?_, hget⟩
  rw [hget i m hm]
  unfold taskOutcome
  rw [hfail]

/-- Review function used in the C2 instantiation: fails on "style" only. -/
def mixedReviewFunc : Mode → String → Except String Result :=
  fun m d => if m == "style" then .error "boom" else okReviewFunc m d

theorem c2_runner_failure_isolated_witness :
    (runnerRun mixedReviewFunc ["security", "style"] "d" [1, 0])[1]? =
        some (some (failedResult "style" "boom")) ∧
      ∀ (j : Nat) (mj : Mode), (["security", "style"] : List Mode)[j]? = some mj →
        (runnerRun mixedReviewFunc ["security", "style"] "d" [1, 0])[j]? =
          some (some (taskOutcome mixedReviewFunc "d" mj)) :=
  c2_runner_failure_isolated mixedReviewFunc ["security", "style"] "d" [1, 0]
    (by decide) 1 "style" "boom" (by decide) rfl

/-! ## Result aggregation (internal/review: `Summarize`, `ShouldBlock`, `GetBlockReason`)

A Go `[]*Result` becomes `List (Option Result)`: `none` is a nil slot. -/

/-- Go `review.Summary`. -/
structure Summary where
  totalReviews : Nat
  issuesFound : Nat
  highSeverity : Nat
  mediumSeverity : Nat
  lowSeverity : Nat
  failedReviews : Nat
deriving DecidableEq, Repr

/-- Body of `Summarize`'s inner loop over one result's issues. -/
def summarizeIssueStep (s : Summary) (issue : Issue) : Summary :=
  let s := { s with issuesFound := s.issuesFound + 1 }
  if issue.severity == "high" then { s with highSeverity := s.highSeverity + 1 }
  else if issue.severity == "medium" then { s with mediumSeverity := s.mediumSeverity + 1 }
  else if issue.severity == "low" then { s with lowSeverity := s.lowSeverity + 1 }
  else s

/-- Body of `Summarize`'s outer loop: nil slots are skipped, failed results
only bump the failure count, all other results contribute their issues. -/
def summarizeStep (s : Summary) (r : Option Result) : Summary :=
  match r with
  | none => s
  | some r =>
    if r.status == StatusFailed then { s with failedReviews := s.failedReviews + 1 }
    else r.issues.foldl summarizeIssueStep s

/-- Go `review.Summarize`: note `TotalReviews` is `len(results)`, set before
the loop and therefore counting nil slots too. -/
def Summarize (results : List (Option Result)) : Summary :=
  results.foldl summarizeStep
    { totalReviews := results.length, issuesFound := 0, highSeverity := 0,
      mediumSeverity := 0, lowSeverity := 0, failedReviews := 0 }

/-- The non-nil results of a result slice. -/
def nonNilResults (results : List (Option Result)) : List Result :=
  results.filterMap id

/-- The issues of all non-nil, non-failed results, in order. -/
def nonFailedIssues (results : List (Option Result)) : List Issue :=
  ((nonNilResults results).filter (fun r => !(r.status == StatusFailed))).flatMap Result.issues

theorem nonNilResults_cons_none (rest : List (Option Result)) :
    nonNilResults (none :: rest) = nonNilResults rest := by
  simp [nonNilResults]

theorem nonNilResults_cons_some (r : Result) (rest : List (Option Result)) :
    nonNilResults (some r :: rest) = r :: nonNilResults rest := by
  simp [nonNilResults]

theorem nonFailedIssues_cons_none (rest : List (Option Result)) :
    nonFailedIssues (none :: rest) = nonFailedIssues rest := by
  simp [nonFailedIssues, nonNilResults_cons_none]

theorem nonFailedIssues_cons_some_failed (r : Result) (rest : List (Option Result))
    (hf : (r.status == StatusFailed) = true) :
    nonFailedIssues (some r :: rest) = nonFailedIssues rest := by
  rw [nonFailedIssues, nonNilResults_cons_some, List.filter_cons]
  simp [hf, nonFailedIssues]

theorem nonFailedIssues_cons_some_ok (r : Result) (rest : List (Option Result))
    (hf : ¬ (r.status == StatusFailed) = true) :
    nonFailedIssues (some r :: rest) = r.issues ++ nonFailedIssues rest := by
  rw [nonFailedIssues, nonNilResults_cons_some, List.filter_cons]
  simp only [Bool.not_eq_true] at hf
  simp [hf, nonFailedIssues]

theorem summarizeIssueStep_delta (s : Summary) (i : Issue) :
    summarizeIssueStep s i =
      { s with issuesFound := s.issuesFound + 1,
               highSeverity := s.highSeverity + (if i.severity == "high" then 1 else 0),
               mediumSeverity := s.mediumSeverity + (if i.severity == "medium" then 1 else 0),
               lowSeverity := s.lowSeverity + (if i.severity == "low" then 1 else 0) } := by
  unfold summarizeIssueStep
  split_ifs with h1 h2 h3 <;> simp_all

theorem foldl_summarizeIssueStep (issues : List Issue) (s : Summary) :
    issues.foldl summarizeIssueStep s =
      { s with issuesFound := s.issuesFound + issues.length,
               highSeverity := s.highSeverity + issues.countP (fun i => i.severity == "high"),
               mediumSeverity := s.mediumSeverity + issues.countP (fun i => i.severity == "medium"),
               lowSeverity := s.lowSeverity + issues.countP (fun i => i.severity == "low") } := by
  induction issues generalizing s with
  | nil => simp
  | cons i rest ih =>
    rw [List.foldl_cons, ih, summarizeIssueStep_delta]
    simp only [List.length_cons, List.countP_cons, Summary.mk.injEq]
    exact ⟨by trivial, by omega, by omega, by omega, by omega, by trivial⟩

theorem foldl_summarizeStep (results : List (Option Result)) (s : Summary) :
    results.foldl summarizeStep s =
      { s with issuesFound := s.issuesFound + (nonFailedIssues results).length,
               highSeverity :=
                 s.highSeverity + (nonFailedIssues results).countP (fun i => i.severity == "high"),
               mediumSeverity :=
                 s.mediumSeverity + (nonFailedIssues results).countP (fun i => i.severity == "medium"),
               lowSeverity :=
                 s.lowSeverity + (nonFailedIssues results).countP (fun i => i.severity == "low"),
               failedReviews :=
                 s.failedReviews +
                   (nonNilResults results).countP (fun r => r.status == StatusFailed) } := by
  induction results generalizing s with
  | nil => simp [nonFailedIssues, nonNilResults]
  | cons r rest ih =>
    rw [List.foldl_cons]
    cases r with
    | none =>
      rw [show summarizeStep s none = s from rfl, ih, nonFailedIssues_cons_none,
        nonNilResults_cons_none]
    | some r =>
      by_cases hf : (r.status == StatusFailed) = true
      · rw [show summarizeStep s (some r) =
            (if (r.status == StatusFailed) = true then
              { s with failedReviews := s.failedReviews + 1 }
            else r.issues.foldl summarizeIssueStep s) from rfl,
          if_pos hf, ih, nonFailedIssues_cons_some_failed r rest hf,
          nonNilResults_cons_some, List.countP_cons]
        simp only [hf, if_true, Summary.mk.injEq]
        and_intros <;> first | trivial | omega
      · rw [show summarizeStep s (some r) =
            (if (r.status == StatusFailed) = true then
              { s with failedReviews := s.failedReviews + 1 }
            else r.issues.foldl summarizeIssueStep s) from rfl,
          if_neg hf, foldl_summarizeIssueStep, ih, nonFailedIssues_cons_some_ok r rest hf,
          nonNilResults_cons_some, List.countP_cons, List.length_append]
        simp only [List.countP_append, hf, if_false, Summary.mk.injEq]
        and_intros <;> first | trivial | omega

/-- C10 counterexample: a nil slot does contribute to the total count —
`Summarize [nil]` reports one total review while `Summarize []` reports zero,
so nil slots are not ignored by every count. -/
theorem c10_nil_total_counterexample :
    (Summarize [none]).totalReviews = 1 ∧ (Summarize []).totalReviews = 0 := by
  decide

/-- C10 (amended): `Summarize` sets the total to the full slice length
(nil slots included), counts failures over the non-nil results, and counts
issues and severities only over non-nil, non-failed results; nil slots
contribute nothing to any count except the total. -/
theorem c10_summarize_spec (results : List (Option Result)) :
    Summarize results =
      { totalReviews := results.length,
        issuesFound := (nonFailedIssues results).length,
        highSeverity := (nonFailedIssues results).countP (fun i => i.severity == "high"),
        mediumSeverity := (nonFailedIssues results).countP (fun i => i.severity == "medium"),
        lowSeverity := (nonFailedIssues results).countP (fun i => i.severity == "low"),
        failedReviews := (nonNilResults results).countP (fun r => r.status == StatusFailed) } := by
  rw [Summarize, foldl_summarizeStep]
  simp

/-- Go `review.ShouldBlock`. -/
def ShouldBlock (results : List (Option Result)) (blockOnIssues : Bool) : Bool :=
  if !blockOnIssues then false
  else results.any (fun r =>
    match r with
    | some r => r.hasHighSeverityIssues
    | none => false)

/-- Counting loop of Go `review.GetBlockReason`. -/
def countHighIssues (results : List (Option Result)) : Nat :=
  results.foldl (fun acc r =>
    match r with
    | some r => r.issues.foldl (fun a i => if i.severity == "high" then a + 1 else a) acc
    | none => acc) 0

/-- Go `review.GetBlockReason`. -/
def GetBlockReason (results : List (Option Result)) : String :=
  let highIssues := countHighIssues results
  if highIssues > 0 then
    if highIssues == 1 then "1 high-severity issue found"
    else toString highIssues ++ " high-severity issues found"
  else ""

/-- The issues of all non-nil results (failed ones included), in order. -/
def allIssues (results : List (Option Result)) : List Issue :=
  (nonNilResults results).flatMap Result.issues

theorem allIssues_cons_none (rest : List (Option Result)) :
    allIssues (none :: rest) = allIssues rest := by
  simp [allIssues, nonNilResults_cons_none]

theorem allIssues_cons_some (r : Result) (rest : List (Option Result)) :
    allIssues (some r :: rest) = r.issues ++ allIssues rest := by
  simp [allIssues, nonNilResults_cons_some]

theorem foldl_countHigh (issues : List Issue) (acc : Nat) :
    issues.foldl (fun a i => if i.severity == "high" then a + 1 else a) acc =
      acc + issues.countP (fun i => i.severity == "high") := by
  induction issues generalizing acc with
  | nil => rfl
  | cons i rest ih =>
    rw [List.foldl_cons, ih, List.countP_cons]
    cases h : i.severity == "high" <;> simp <;> try omega

theorem countHighIssues_eq (results : List (Option Result)) :
    countHighIssues results = (allIssues results).countP (fun i => i.severity == "high") := by
  suffices h : ∀ acc, results.foldl (fun acc r =>
      match r with
      | some r => r.issues.foldl (fun a i => if i.severity == "high" then a + 1 else a) acc
      | none => acc) acc = acc + (allIssues results).countP (fun i => i.severity == "high") by
    simpa [countHighIssues] using h 0
  induction results with
  | nil => intro acc; simp [allIssues, nonNilResults]
  | cons r rest ih =>
    intro acc
    cases r with
    | none => simpa [allIssues_cons_none] using ih acc
    | some r =>
      rw [List.foldl_cons]
      show (rest.foldl _ (r.issues.foldl _ acc)) = _
      rw [ih, foldl_countHigh, allIssues_cons_some, List.countP_append]
      omega

/-- C9: blocking is off when the flag is off; with the flag on it blocks iff
some non-nil result has a high-severity issue; and the block reason is the
singular message for exactly one high-severity issue across all results, the
pluralized count for two or more, and empty for none. -/
theorem c9_block_policy (results : List (Option Result)) :
    ShouldBlock results false = false ∧
      (ShouldBlock results true = true ↔
        ∃ r ∈ nonNilResults results, ∃ i ∈ r.issues, i.severity = "high") ∧
      ((allIssues results).countP (fun i => i.severity == "high") = 0 →
        GetBlockReason results = "") ∧
      ((allIssues results).countP (fun i => i.severity == "high") = 1 →
        GetBlockReason results = "1 high-severity issue found") ∧
      (2 ≤ (allIssues results).countP (fun i => i.severity == "high") →
        GetBlockReason results =
          toString ((allIssues results).countP (fun i => i.severity == "high")) ++
            " high-severity issues found") := by
  refine ⟨rfl, ?_, ?_, ?_, ?_⟩
  · rw [ShouldBlock]
    simp only [Bool.not_true, Bool.false_eq_true, if_false, List.any_eq_true]
    constructor
    · rintro ⟨r, hr, hhigh⟩
      cases r with
      | none => simp at hhigh
      | some ro =>
        have : ro.hasHighSeverityIssues = true := hhigh
        rw [Result.hasHighSeverityIssues, List.any_eq_true] at this
        obtain ⟨i, hi, hsev⟩ := this
        exact ⟨ro, by simp [nonNilResults, List.mem_filterMap]; exact hr, i, hi,
          by simpa using hsev⟩
    · rintro ⟨ro, hro, i, hi, hsev⟩
      rw [nonNilResults, List.mem_filterMap] at hro
      obtain ⟨r, hr, hid⟩ := hro
      cases r with
      | none => simp at hid
      | some ro2 =>
        simp only [id, Option.some.injEq] at hid
        subst hid
        refine ⟨some ro2, hr, ?_⟩
        show ro2.hasHighSeverityIssues = true
        rw [Result.hasHighSeverityIssues, List.any_eq_true]
        exact ⟨i, hi, by simpa using hsev⟩
  · intro h
    rw [GetBlockReason, countHighIssues_eq, h]
    rfl
  · intro h
    rw [GetBlockReason, countHighIssues_eq, h]
    rfl
  · intro h
    rw [GetBlockReason, countHighIssues_eq]
    have h1 : (allIssues results).countP (fun i => i.severity == "high") > 0 := by omega
    have h2 : ((allIssues results).countP (fun i => i.severity == "high") == 1) = false := by
      rw [beq_eq_false_iff_ne]
      omega
    rw [if_pos h1, h2]
    simp

/-- Concrete result slice: one clean result, one high-severity, one medium. -/
def resultsC9 : List (Option Result) :=
  [some { mode := "security", status := StatusNoIssues, summary := "", issues := [],
          suggestions := [], error := "" },
   some { mode := "errors", status := StatusIssues, summary := "",
          issues := [{ severity := "high", description := "bad", location := "" }],
          suggestions := [], error := "" },
   some { mode := "style", status := StatusIssues, summary := "",
          issues := [{ severity := "medium", description := "meh", location := "" }],
          suggestions := [], error := "" }]

theorem c9_block_policy_witness :
    ShouldBlock resultsC9 true = true ∧ ShouldBlock resultsC9 false = false ∧
      GetBlockReason resultsC9 = "1 high-severity issue found" :=
  ⟨(c9_block_policy resultsC9).2.1.mpr (by decide),
   (c9_block_policy resultsC9).1,
   (c9_block_policy resultsC9).2.2.2.1 (by decide)⟩

/-! ## Diff truncation (internal/ai/client.go, `truncateDiff`) -/

/-- Go `ai.MaxDiffSize`. -/
def MaxDiffSize : Nat := 100000

/-- The fixed truncation marker appended by `truncateDiff`. -/
def truncMarker : List Char := "\n\n[... diff truncated due to size limits ...]".toList

/-- The downward search loop of `truncateDiff`: starting at `MaxDiffSize`,
find the first index (scanning down, staying above `MaxDiffSize - 1000` and 0)
holding a newline. -/
def findNewlineDown (diff : List Char) : Nat → Option Nat
  | 0 => none
  | i + 1 =>
    if MaxDiffSize - 1000 < i + 1 then
      if diff[i + 1]? = some '\n' then some (i + 1) else findNewlineDown diff i
    else none

/-- Go `ai.truncateDiff`: diffs at most `MaxDiffSize` long pass through;
longer diffs are cut at the newline found by the downward search (or at
exactly `MaxDiffSize` when none is found) and the marker is appended. -/
def truncateDiff (diff : List Char) : List Char :=
  if diff.length ≤ MaxDiffSize then diff
  else
    let truncateAt := (findNewlineDown diff MaxDiffSize).getD MaxDiffSize
    diff.take truncateAt ++ truncMarker

theorem findNewlineDown_some (diff : List Char) (i t : Nat)
    (h : findNewlineDown diff i = some t) :
    MaxDiffSize - 1000 < t ∧ t ≤ i ∧ diff[t]? = some '\n' ∧
      ∀ j, t < j → j ≤ i → diff[j]? ≠ some '\n' := by
  induction i with
  | zero => cases h
  | succ i ih =>
    rw [findNewlineDown] at h
    split_ifs at h with hw hn
    · cases h
      exact ⟨hw, Nat.le_refl _, hn, fun j hj1 hj2 => by omega⟩
    · obtain ⟨h1, h2, h3, h4⟩ := ih h
      refine ⟨h1, Nat.le_succ_of_le h2, h3, fun j hj1 hj2 => ?_⟩
      rcases Nat.lt_or_ge j (i + 1) with hj | hj
      · exact h4 j hj1 (by omega)
      · have : j = i + 1 := by omega
        rw [this]
        exact hn

theorem findNewlineDown_none (diff : List Char) (i : Nat)
    (h : findNewlineDown diff i = none) :
    ∀ j, MaxDiffSize - 1000 < j → j ≤ i → diff[j]? ≠ some '\n' := by
  induction i with
  | zero => intro j hj1 hj2; omega
  | succ i ih =>
    rw [findNewlineDown] at h
    split_ifs at h with hw hn
    · intro j hj1 hj2
      rcases Nat.lt_or_ge j (i + 1) with hj | hj
      · exact ih h j hj1 (by omega)
      · have : j = i + 1 := by omega
        rw [this]
        exact hn
    · intro j hj1 hj2
      omega

/-- C8 counterexample: a 100,001-character diff with no newline at all is
truncated, but not at any line boundary — no cut position `t` in the window
carries a newline, so the claimed form of the result is unattainable. -/
theorem c8_line_boundary_counterexample :
    ¬ ∃ t : Nat, truncateDiff (List.replicate 100001 'a') =
        (List.replicate 100001 'a').take t ++ truncMarker ∧
      MaxDiffSize - 1000 < t ∧ t ≤ MaxDiffSize ∧
      (List.replicate 100001 'a')[t]? = some '\n' := by
  rintro ⟨t, -, -, ht, hnl⟩
  have ha : (List.replicate 100001 'a')[t]? = some 'a' := by
    rw [List.getElem?_replicate, if_pos (show t < 100001 by
      rw [show MaxDiffSize = 100000 from rfl] at ht
      omega)]
  rw [ha] at hnl
  exact absurd (Option.some.inj hnl) (by decide)

/-- C8 (amended): diffs of at most 100,000 characters pass through unchanged;
longer diffs become `diff.take t ++ marker` with `t ≤ 100,000` and total
length at most 100,000 plus the marker length, where `t` is the largest
newline position in the last-1,000-character window when one exists, and
exactly 100,000 (not necessarily a line boundary) when the window holds no
newline. -/
theorem c8_truncate_diff_spec (diff : List Char) :
    (diff.length ≤ MaxDiffSize → truncateDiff diff = diff) ∧
      (MaxDiffSize < diff.length →
        (truncateDiff diff).length ≤ MaxDiffSize + truncMarker.length ∧
        ∃ t, truncateDiff diff = diff.take t ++ truncMarker ∧ t ≤ MaxDiffSize ∧
          ((∃ j, MaxDiffSize - 1000 < j ∧ j ≤ MaxDiffSize ∧ diff[j]? = some '\n') →
            MaxDiffSize - 1000 < t ∧ diff[t]? = some '\n' ∧
              ∀ j, t < j → j ≤ MaxDiffSize → diff[j]? ≠ some '\n') ∧
          ((∀ j, MaxDiffSize - 1000 < j → j ≤ MaxDiffSize → diff[j]? ≠ some '\n') →
            t = MaxDiffSize)) := by
  constructor
  · intro hle
    rw [truncateDiff, if_pos hle]
  · intro hgt
    have hneg : ¬ diff.length ≤ MaxDiffSize := by omega
    have hbody : truncateDiff diff =
        diff.take ((findNewlineDown diff MaxDiffSize).getD MaxDiffSize) ++ truncMarker := by
      rw [truncateDiff, if_neg hneg]
    constructor
    · rw [hbody]
      have hfind : (findNewlineDown diff MaxDiffSize).getD MaxDiffSize ≤ MaxDiffSize := by
        cases h : findNewlineDown diff MaxDiffSize with
        | none => simp
        | some t =>
          simp only [Option.getD_some]
          exact (findNewlineDown_some diff _ t h).2.1
      rw [List.length_append, List.length_take]
      omega
    · refine ⟨(findNewlineDown diff MaxDiffSize).getD MaxDiffSize, hbody, ?_, ?_, ?_⟩
      · cases h : findNewlineDown diff MaxDiffSize with
        | none => simp
        | some t =>
          simp only [Option.getD_some]
          exact (findNewlineDown_some diff _ t h).2.1
      · rintro ⟨j, hj1, hj2, hjnl⟩
        cases h : findNewlineDown diff MaxDiffSize with
        | none => exact absurd hjnl (findNewlineDown_none diff _ h j hj1 hj2)
        | some t =>
          obtain ⟨h1, h2, h3, h4⟩ := findNewlineDown_some diff _ t h
          simp only [Option.getD_some]
          exact ⟨h1, h3, h4⟩
      · intro hno
        cases h : findNewlineDown diff MaxDiffSize with
        | none => simp
        | some t =>
          obtain ⟨h1, h2, h3, h4⟩ := findNewlineDown_some diff _ t h
          exact absurd h3 (hno t h1 h2)

theorem c8_truncate_diff_spec_witness :
    truncateDiff ("diff --git a".toList) = "diff --git a".toList :=
  (c8_truncate_diff_spec _).1 (by decide)

/-! ## Retry engine (`executeWithRetry`)

The loop classifies each failure (`classifyError`) and keeps three counters:
`rateLimitRetries`, `networkRetries` and `processRetries`.  Note that both
the connection and the network branches of the Go `switch` increment the
same `networkRetries` counter.  The raw Go error is abstracted to its
classification plus the detail string the corresponding `extract*ErrorMsg`
helper would produce.  The Go context is modelled as a Boolean observation
sequence `ctxDone`, polled once before each attempt and once inside each
`sleepWithContext`; delays are recorded in seconds. -/

/-- Error categories produced by Go `classifyError`. -/
inductive ErrClass where
  | cliNotFound
  | auth
  | rateLimit
  | connection
  | process
  | network
  | server
  | timeout
  | unknown
deriving DecidableEq, Repr

/-- A classified failure: category, `Error()` text, and the detail message
the matching extractor yields. -/
structure ClassifiedErr where
  cls : ErrClass
  raw : String
  detail : String
deriving DecidableEq, Repr

/-- Result of `executeWithRetry`: success, a terminal error message, or the
context's cancellation error. -/
inductive RetryResult where
  | ok
  | failed (msg : String)
  | cancelled
deriving DecidableEq, Repr

def maxRateLimitRetries : Nat := 3

def maxNetworkRetries : Nat := 1

def maxProcessRetries : Nat := 1

/-- Initial rate-limit backoff, in seconds. -/
def initialBackoff : Nat := 1

/-- Fixed connection/network retry delay, in seconds. -/
def networkRetryDelay : Nat := 2

/-- Fixed process retry delay, in seconds. -/
def processRetryDelay : Nat := 2

def errMsgCLINotFound : String :=
  "Claude Code CLI not found. Install with: npm install -g @anthropic-ai/claude-code"

def errMsgAuth : String :=
  "Claude CLI authentication required. Run 'claude login' to authenticate."

def errMsgRateLimit : String := "rate limit exceeded after 3 retries"

def errMsgServer : String := "Claude API error occurred. Please try again later."

def errMsgTimeout : String := "request timed out"

/-- The retry loop of Go `executeWithRetry`.  Arguments: poll index into the
context observation sequence, attempt index into the outcome sequence, the
three retry counters, the current rate-limit backoff, and the delays slept
so far.  Returns the outcome, the delay list, and the number of attempts. -/
def retryGo (ctxDone : Nat → Bool) (outcomes : Nat → Option ClassifiedErr) :
    Nat → Nat → Nat → Nat → Nat → Nat → List Nat → RetryResult × List Nat × Nat
  | poll, attempt, rl, nw, pr, backoff, delays =>
    if ctxDone poll then (.cancelled, delays, attempt)
    else
      match outcomes attempt with
      | none => (.ok, delays, attempt + 1)
      | some err =>
        match err.cls with
        | .cliNotFound => (.failed errMsgCLINotFound, delays, attempt + 1)
        | .auth => (.failed errMsgAuth, delays, attempt + 1)
        | .rateLimit =>
          if h1 : rl + 1 > maxRateLimitRetries then
            (.failed errMsgRateLimit, delays, attempt + 1)
          else if ctxDone (poll + 1) then (.cancelled, delays, attempt + 1)
          else retryGo ctxDone outcomes (poll + 2) (attempt + 1) (rl + 1) nw pr
            (backoff * 2) (delays ++ [backoff])
        | .connection =>
          if h2 : nw + 1 > maxNetworkRetries then
            (.failed ("connection to Claude Code CLI failed: " ++ err.detail), delays, attempt + 1)
          else if ctxDone (poll + 1) then (.cancelled, delays, attempt + 1)
          else retryGo ctxDone outcomes (poll + 2) (attempt + 1) rl (nw + 1) pr
            backoff (delays ++ [networkRetryDelay])
        | .process =>
          if h3 : pr + 1 > maxProcessRetries then
            (.failed ("Claude Code CLI subprocess failed: " ++ err.detail), delays, attempt + 1)
          else if ctxDone (poll + 1) then (.cancelled, delays, attempt + 1)
          else retryGo ctxDone outcomes (poll + 2) (attempt + 1) rl nw (pr + 1)
            backoff (delays ++ [processRetryDelay])
        | .network =>
          if h4 : nw + 1 > maxNetworkRetries then
            (.failed ("network error: " ++ err.detail), delays, attempt + 1)
          else if ctxDone (poll + 1) then (.cancelled, delays, attempt + 1)
          else retryGo ctxDone outcomes (poll + 2) (attempt + 1) rl (nw + 1) pr
            backoff (delays ++ [networkRetryDelay])
        | .server => (.failed errMsgServer, delays, attempt + 1)
        | .timeout => (.failed errMsgTimeout, delays, attempt + 1)
        | .unknown => (.failed err.raw, delays, attempt + 1)
termination_by poll attempt rl nw pr backoff delays =>
  (maxRateLimitRetries + 1 - rl) + (maxNetworkRetries + 1 - nw) + (maxProcessRetries + 1 - pr)
decreasing_by
  all_goals simp_wf
  all_goals simp only [maxRateLimitRetries, maxNetworkRetries, maxProcessRetries] at *
  all_goals omega

/-- Go `executeWithRetry`: the loop started on fresh counters. -/
def executeWithRetry (ctxDone : Nat → Bool) (outcomes : Nat → Option ClassifiedErr) :
    RetryResult × List Nat × Nat :=
  retryGo ctxDone outcomes 0 0 0 0 0 initialBackoff []

theorem retryGo_success (ctxDone : Nat → Bool) (outcomes : Nat → Option ClassifiedErr)
    (poll attempt rl nw pr backoff : Nat) (delays : List Nat)
    (hctx : ctxDone poll = false) (he : outcomes attempt = none) :
    retryGo ctxDone outcomes poll attempt rl nw pr backoff delays = (.ok, delays, attempt + 1) := by
  rw [retryGo, hctx, he]
  simp

theorem retryGo_rateLimit_step (ctxDone : Nat → Bool) (outcomes : Nat → Option ClassifiedErr)
    (poll attempt rl nw pr backoff : Nat) (delays : List Nat) (e : ClassifiedErr)
    (hctx : ctxDone poll = false) (hctx2 : ctxDone (poll + 1) = false)
    (he : outcomes attempt = some e) (hcls : e.cls = .rateLimit)
    (hrl : rl + 1 ≤ maxRateLimitRetries) :
    retryGo ctxDone outcomes poll attempt rl nw pr backoff delays =
      retryGo ctxDone outcomes (poll + 2) (attempt + 1) (rl + 1) nw pr (backoff * 2)
        (delays ++ [backoff]) := by
  rw [retryGo, hctx, he]
  simp only [Bool.false_eq_true, if_false, hcls]
  rw [dif_neg (by omega), hctx2]
  simp

theorem retryGo_rateLimit_exhausted (ctxDone : Nat → Bool)
    (outcomes : Nat → Option ClassifiedErr)
    (poll attempt rl nw pr backoff : Nat) (delays : List Nat) (e : ClassifiedErr)
    (hctx : ctxDone poll = false)
    (he : outcomes attempt = some e) (hcls : e.cls = .rateLimit)
    (hrl : rl + 1 > maxRateLimitRetries) :
    retryGo ctxDone outcomes poll attempt rl nw pr backoff delays =
      (.failed errMsgRateLimit, delays, attempt + 1) := by
  rw [retryGo, hctx, he]
  simp only [Bool.false_eq_true, if_false, hcls]
  rw [dif_pos hrl]

theorem retryGo_connection_step (ctxDone : Nat → Bool) (outcomes : Nat → Option ClassifiedErr)
    (poll attempt rl nw pr backoff : Nat) (delays : List Nat) (e : ClassifiedErr)
    (hctx : ctxDone poll = false) (hctx2 : ctxDone (poll + 1) = false)
    (he : outcomes attempt = some e) (hcls : e.cls = .connection)
    (hnw : nw + 1 ≤ maxNetworkRetries) :
    retryGo ctxDone outcomes poll attempt rl nw pr backoff delays =
      retryGo ctxDone outcomes (poll + 2) (attempt + 1) rl (nw + 1) pr backoff
        (delays ++ [networkRetryDelay]) := by
  rw [retryGo, hctx, he]
  simp only [Bool.false_eq_true, if_false, hcls]
  rw [dif_neg (by omega), hctx2]
  simp

theorem retryGo_network_exhausted (ctxDone : Nat → Bool)
    (outcomes : Nat → Option ClassifiedErr)
    (poll attempt rl nw pr backoff : Nat) (delays : List Nat) (e : ClassifiedErr)
    (hctx : ctxDone poll = false)
    (he : outcomes attempt = some e) (hcls : e.cls = .network)
    (hnw : nw + 1 > maxNetworkRetries) :
    retryGo ctxDone outcomes poll attempt rl nw pr backoff delays =
      (.failed ("network error: " ++ e.detail), delays, attempt + 1) := by
  rw [retryGo, hctx, he]
  simp only [Bool.false_eq_true, if_false, hcls]
  rw [dif_pos hnw]

theorem retryGo_process_step (ctxDone : Nat → Bool) (outcomes : Nat → Option ClassifiedErr)
    (poll attempt rl nw pr backoff : Nat) (delays : List Nat) (e : ClassifiedErr)
    (hctx : ctxDone poll = false) (hctx2 : ctxDone (poll + 1) = false)
    (he : outcomes attempt = some e) (hcls : e.cls = .process)
    (hpr : pr + 1 ≤ maxProcessRetries) :
    retryGo ctxDone outcomes poll attempt rl nw pr backoff delays =
      retryGo ctxDone outcomes (poll + 2) (attempt + 1) rl nw (pr + 1) backoff
        (delays ++ [processRetryDelay]) := by
  rw [retryGo, hctx, he]
  simp only [Bool.false_eq_true, if_false, hcls]
  rw [dif_neg (by omega), hctx2]
  simp

/-- C5: when every attempt fails with a rate-limit-classified error and the
context never cancels, the engine makes exactly 4 attempts (3 retries),
sleeps 1s, 2s then 4s between them, and ends with the fixed exhaustion
message. -/
theorem c5_rate_limit_schedule (outcomes : Nat → Option ClassifiedErr)
    (h : ∀ n, ∃ e : ClassifiedErr, outcomes n = some e ∧ e.cls = .rateLimit) :
    executeWithRetry (fun _ => false) outcomes = (.failed errMsgRateLimit, [1, 2, 4], 4) := by
  obtain ⟨e0, h0, hc0⟩ := h 0
  obtain ⟨e1, h1, hc1⟩ := h 1
  obtain ⟨e2, h2, hc2⟩ := h 2
  obtain ⟨e3, h3, hc3⟩ := h 3
  rw [executeWithRetry,
    retryGo_rateLimit_step _ _ _ _ _ _ _ _ _ e0 rfl rfl h0 hc0 (by decide),
    retryGo_rateLimit_step _ _ _ _ _ _ _ _ _ e1 rfl rfl h1 hc1 (by decide),
    retryGo_rateLimit_step _ _ _ _ _ _ _ _ _ e2 rfl rfl h2 hc2 (by decide),
    retryGo_rateLimit_exhausted _ _ _ _ _ _ _ _ _ e3 rfl h3 hc3 (by decide)]
  rfl

/-- Concrete outcome sequence: every attempt is rate limited. -/
def outcomesC5 : Nat → Option ClassifiedErr :=
  fun _ => some { cls := .rateLimit, raw := "rate limited", detail := "rate limited" }

theorem c5_rate_limit_schedule_witness :
    executeWithRetry (fun _ => false) outcomesC5 = (.failed errMsgRateLimit, [1, 2, 4], 4) :=
  c5_rate_limit_schedule outcomesC5 (fun _ =>
    ⟨{ cls := .rateLimit, raw := "rate limited", detail := "rate limited" }, rfl, rfl⟩)

/-- Concrete outcome sequence: a connectivity failure, then a transient
network error, then success. -/
def outcomesC6 : Nat → Option ClassifiedErr :=
  fun n =>
    if n = 0 then some { cls := .connection, raw := "conn refused", detail := "conn refused" }
    else if n = 1 then some { cls := .network, raw := "dns fail", detail := "no such host" }
    else none

/-- C6 counterexample: after a first connectivity-failure, a first
transient-network error is not retried at all — the run stops after two
attempts with the network failure message and a single 2s delay, even though
a third attempt would have succeeded.  Under the claimed independent
budgets the network error would have received its own retry. -/
theorem c6_shared_budget_counterexample :
    executeWithRetry (fun _ => false) outcomesC6 =
      (.failed ("network error: " ++ "no such host"), [2], 2) := by
  rw [executeWithRetry,
    retryGo_connection_step _ _ _ _ _ _ _ _ _ _ rfl rfl rfl rfl (by decide),
    retryGo_network_exhausted _ _ _ _ _ _ _ _ _ _ rfl rfl rfl (by decide)]
  rfl

/-- C6 (amended): connectivity-failure and transient-network errors share a
single retry budget of 1 (the Go loop increments the same `networkRetries`
counter for both), each retry with a fixed 2s delay, while subprocess-crash
keeps its own independent budget of 1.  So a first connectivity-failure
followed by a first transient-network error terminates at the second attempt
with the network message, whereas a connectivity-failure followed by a
subprocess-crash still gets the crash retried. -/
theorem c6_retry_budgets (outcomes : Nat → Option ClassifiedErr) :
    (∀ e0 e1 : ClassifiedErr, outcomes 0 = some e0 → e0.cls = .connection →
      outcomes 1 = some e1 → e1.cls = .network →
      executeWithRetry (fun _ => false) outcomes =
        (.failed ("network error: " ++ e1.detail), [2], 2)) ∧
    (∀ e0 e1 : ClassifiedErr, outcomes 0 = some e0 → e0.cls = .connection →
      outcomes 1 = some e1 → e1.cls = .process →
      outcomes 2 = none →
      executeWithRetry (fun _ => false) outcomes = (.ok, [2, 2], 3)) := by
  constructor
  · intro e0 e1 h0 hc0 h1 hc1
    rw [executeWithRetry,
      retryGo_connection_step _ _ _ _ _ _ _ _ _ e0 rfl rfl h0 hc0 (by decide),
      retryGo_network_exhausted _ _ _ _ _ _ _ _ _ e1 rfl h1 hc1 (by decide)]
    rfl
  · intro e0 e1 h0 hc0 h1 hc1 h2
    rw [executeWithRetry,
      retryGo_connection_step _ _ _ _ _ _ _ _ _ e0 rfl rfl h0 hc0 (by decide),
      retryGo_process_step _ _ _ _ _ _ _ _ _ e1 rfl rfl h1 hc1 (by decide),
      retryGo_success _ _ _ _ _ _ _ _ _ rfl h2]
    rfl

/-- Concrete outcome sequence: a connectivity failure, then a subprocess
crash, then success. -/
def outcomesC6b : Nat → Option ClassifiedErr :=
  fun n =>
    if n = 0 then some { cls := .connection, raw := "conn refused", detail := "conn refused" }
    else if n = 1 then some { cls := .process, raw := "crash", detail := "exit code 1" }
    else none

theorem c6_retry_budgets_witness :
    executeWithRetry (fun _ => false) outcomesC6 =
        (.failed ("network error: " ++ "no such host"), [2], 2) ∧
      executeWithRetry (fun _ => false) outcomesC6b = (.ok, [2, 2], 3) :=
  ⟨(c6_retry_budgets outcomesC6).1 _ _ rfl rfl rfl rfl,
   (c6_retry_budgets outcomesC6b).2 _ _ rfl rfl rfl rfl rfl⟩

/-! ## Streaming aggregator (internal/ai/client.go, `callAPIWithStreaming`)

The SDK message stream becomes a list of messages: assistant messages
carrying content blocks, result (terminal) messages carrying the error
flag, and other messages, which the loop ignores.  Accumulated text is a
`List Char`; the events forwarded to the stream callback are collected in
order. -/

/-- A content block of an assistant message. -/
inductive ContentBlock where
  | textBlock (text : List Char)
  | otherBlock
deriving DecidableEq, Repr

/-- One message of the stream. -/
inductive Message where
  | assistant (blocks : List ContentBlock)
  | result (isError : Bool)
  | other
deriving DecidableEq, Repr

/-- One `StreamContent` notification forwarded to the callback. -/
structure StreamEvent where
  mode : String
  content : List Char
deriving DecidableEq, Repr

/-- The generic error returned on a terminal-failure message. -/
def apiErrorMsg : String := "API error in result message"

/-- Processing of one content block: text blocks are appended to the
accumulator and forwarded as an event; other blocks are skipped. -/
def assistantStep (mode : String) (p : List Char × List StreamEvent) (b : ContentBlock) :
    List Char × List StreamEvent :=
  match b with
  | .textBlock t => (p.1 ++ t, p.2 ++ [{ mode := mode, content := t }])
  | .otherBlock => p

/-- The receive loop of Go `callAPIWithStreaming` over the message stream,
carrying the accumulated content and the events sent so far. -/
def streamGo (mode : String) : List Char → List StreamEvent → List Message →
    Except String (List Char) × List StreamEvent
  | acc, events, [] => (.ok acc, events)
  | acc, events, .assistant bs :: rest =>
    let p := bs.foldl (assistantStep mode) (acc, events)
    streamGo mode p.1 p.2 rest
  | acc, events, .result isError :: _ =>
    if isError then
      if acc.length > 0 then
        (.error apiErrorMsg, events ++ [{ mode := mode, content := "...".toList }])
      else (.error apiErrorMsg, events)
    else (.ok acc, events)
  | acc, events, .other :: rest => streamGo mode acc events rest

/-- Go `callAPIWithStreaming` after a successful `Query`, as a function of
the received message stream. -/
def callAPIWithStreaming (mode : String) (msgs : List Message) :
    Except String (List Char) × List StreamEvent :=
  streamGo mode [] [] msgs

/-- Whether a message is a terminal (result) message. -/
def isTerminal : Message → Bool
  | .result _ => true
  | _ => false

/-- The text fragments a message contributes, in order. -/
def msgTexts : Message → List (List Char)
  | .assistant bs =>
    bs.filterMap (fun b =>
      match b with
      | .textBlock t => some t
      | .otherBlock => none)
  | _ => []

/-- The text accumulated over a message list. -/
def textOfMsgs (msgs : List Message) : List Char :=
  (msgs.flatMap msgTexts).flatten

/-- The events forwarded over a message list. -/
def eventsOf (mode : String) (msgs : List Message) : List StreamEvent :=
  (msgs.flatMap msgTexts).map (fun t => { mode := mode, content := t })

theorem foldl_assistantStep (mode : String) (bs : List ContentBlock) (acc : List Char)
    (events : List StreamEvent) :
    bs.foldl (assistantStep mode) (acc, events) =
      (acc ++ (msgTexts (.assistant bs)).flatten,
       events ++ (msgTexts (.assistant bs)).map (fun t => { mode := mode, content := t })) := by
  induction bs generalizing acc events with
  | nil => simp [msgTexts]
  | cons b rest ih =>
    cases b with
    | textBlock t =>
      rw [List.foldl_cons]
      show rest.foldl (assistantStep mode) (acc ++ t, events ++ [{ mode := mode, content := t }]) = _
      rw [ih]
      simp [msgTexts]
    | otherBlock =>
      rw [List.foldl_cons]
      show rest.foldl (assistantStep mode) (acc, events) = _
      rw [ih]
      simp [msgTexts]

theorem streamGo_no_terminal (mode : String) (msgs : List Message)
    (hnr : msgs.all (fun m => !isTerminal m) = true) :
    ∀ acc events, streamGo mode acc events msgs =
      (.ok (acc ++ textOfMsgs msgs), events ++ eventsOf mode msgs) := by
  induction msgs with
  | nil => intro acc events; simp [streamGo, textOfMsgs, eventsOf]
  | cons m rest ih =>
    rw [List.all_cons, Bool.and_eq_true] at hnr
    intro acc events
    cases m with
    | assistant bs =>
      show streamGo mode _ _ _ = _
      rw [streamGo, foldl_assistantStep]
      rw [ih hnr.2]
      simp [textOfMsgs, eventsOf]
    | result b => simp [isTerminal] at hnr
    | other =>
      rw [streamGo, ih hnr.2]
      simp [textOfMsgs, eventsOf, msgTexts]

theorem streamGo_terminal (mode : String) (pre rest : List Message) (b : Bool)
    (hnr : pre.all (fun m => !isTerminal m) = true) :
    ∀ acc events, streamGo mode acc events (pre ++ .result b :: rest) =
      if b then
        if (acc ++ textOfMsgs pre).length > 0 then
          (.error apiErrorMsg,
            events ++ eventsOf mode pre ++ [{ mode := mode, content := "...".toList }])
        else (.error apiErrorMsg, events ++ eventsOf mode pre)
      else (.ok (acc ++ textOfMsgs pre), events ++ eventsOf mode pre) := by
  induction pre with
  | nil =>
    intro acc events
    rw [List.nil_append, streamGo]
    simp [textOfMsgs, eventsOf]
  | cons m mrest ih =>
    rw [List.all_cons, Bool.and_eq_true] at hnr
    intro acc events
    cases m with
    | assistant bs =>
      rw [List.cons_append, streamGo, foldl_assistantStep, ih hnr.2]
      simp only [textOfMsgs, eventsOf, List.flatMap_cons, List.flatten_append, List.map_append,
        List.append_assoc]
    | result bb => simp [isTerminal] at hnr
    | other =>
      rw [List.cons_append, streamGo, ih hnr.2]
      simp only [textOfMsgs, eventsOf, msgTexts, List.flatMap_cons, List.flatten_append,
        List.map_append, List.append_assoc, List.flatten_nil, List.map_nil, List.nil_append,
        List.append_nil]

/-- C7: on a terminal-success message the streaming call returns exactly the
text accumulated before it (later messages ignored); on a terminal-failure
message it returns the generic backend error with no text, forwarding a
short "interrupted" marker event first exactly when text had accumulated;
and a stream that ends without any terminal message yields the accumulated
text as a success. -/
theorem c7_streaming_terminal_behavior (mode : String) (pre rest msgs : List Message)
    (hpre : pre.all (fun m => !isTerminal m) = true)
    (hmsgs : msgs.all (fun m => !isTerminal m) = true) :
    callAPIWithStreaming mode (pre ++ .result false :: rest) =
        (.ok (textOfMsgs pre), eventsOf mode pre) ∧
      callAPIWithStreaming mode (pre ++ .result true :: rest) =
        (.error apiErrorMsg,
          eventsOf mode pre ++
            (if (textOfMsgs pre).length > 0 then [{ mode := mode, content := "...".toList }]
             else [])) ∧
      callAPIWithStreaming mode msgs = (.ok (textOfMsgs msgs), eventsOf mode msgs) := by
  refine ⟨?_, ?_, ?_⟩
  · rw [callAPIWithStreaming, streamGo_terminal mode pre rest false hpre]
    simp
  · rw [callAPIWithStreaming, streamGo_terminal mode pre rest true hpre]
    by_cases hl : (textOfMsgs pre).length > 0
    · simp [hl]
    · simp [hl]
  · rw [callAPIWithStreaming, streamGo_no_terminal mode msgs hmsgs]
    simp

/-- Concrete message prefix: one assistant message with a text block and an
ignored block, and one unknown message. -/
def preC7 : List Message :=
  [.assistant [.textBlock ("par".toList), .otherBlock], .other]

theorem c7_streaming_terminal_behavior_witness :
    callAPIWithStreaming "security" (preC7 ++ .result false :: [.other]) =
        (.ok (textOfMsgs preC7), eventsOf "security" preC7) ∧
      callAPIWithStreaming "security" (preC7 ++ .result true :: [.other]) =
        (.error apiErrorMsg,
          eventsOf "security" preC7 ++
            (if (textOfMsgs preC7).length > 0 then
              [{ mode := "security", content := "...".toList }]
             else [])) ∧
      callAPIWithStreaming "security" preC7 =
        (.ok (textOfMsgs preC7), eventsOf "security" preC7) :=
  c7_streaming_terminal_behavior "security" preC7 [.other] preC7 (by decide) (by decide)

/-! ## JSON extraction (internal/claude/client.go, `extractJSONFromClaudeResult`)

The Go function trims whitespace, strips a markdown fence, locates the
first opening brace, and scans forward tracking brace depth and an
inside-string flag, treating a quote as escaped iff it is preceded by an
odd number of consecutive backslashes (counted by looking backwards in the
string).  The scan is embedded structurally over the remaining suffix while
carrying the absolute position, exactly mirroring the indexed loop.

For the specification side an independent state machine `scanStep` is used:
it carries the running count of consecutive backslashes as state instead of
re-counting backwards, and the two formulations are proved to agree. -/

/-- Go `unicode.IsSpace` restricted to the Latin-1 range (the inputs of
interest are byte strings): space, tab, newline, vertical tab, form feed,
carriage return, next line and no-break space. -/
def isSpaceGo (c : Char) : Bool :=
  c = ' ' || c = '\t' || c = '\n' || c = '\x0b' || c = '\x0c' || c = '\r' ||
    c = '\u0085' || c = ' '

/-- Go `strings.TrimSpace`. -/
def trimSpace (s : List Char) : List Char :=
  ((s.dropWhile isSpaceGo).reverse.dropWhile isSpaceGo).reverse

/-- Go `strings.TrimPrefix`. -/
def dropPrefixIfPresent (p s : List Char) : List Char :=
  if p.isPrefixOf s then s.drop p.length else s

/-- Go `strings.TrimSuffix`. -/
def dropSuffixIfPresent (p s : List Char) : List Char :=
  if p.isSuffixOf s then s.take (s.length - p.length) else s

def fenceJson : List Char := "```json".toList

def fenceBare : List Char := "```".toList

/-- The fence-stripping preamble of `extractJSONFromClaudeResult`. -/
def stripFences (r : List Char) : List Char :=
  if fenceJson.isPrefixOf r then
    trimSpace (dropSuffixIfPresent fenceBare (dropPrefixIfPresent fenceJson r))
  else if fenceBare.isPrefixOf r then
    trimSpace (dropSuffixIfPresent fenceBare (dropPrefixIfPresent fenceBare r))
  else r

/-- Trim then strip fences: the whole preamble. -/
def preprocessResult (x : List Char) : List Char := stripFences (trimSpace x)

/-- Go `strings.Index(result, "\x7b")`: position of the first opening brace. -/
def indexOfBrace : List Char → Option Nat
  | [] => none
  | c :: rest => if c = '{' then some 0 else (indexOfBrace rest).map (fun i => i + 1)

def isBackslash (c : Char) : Bool := c == '\\'

/-- Number of trailing backslashes of a list. -/
def trailingBackslashes (cs : List Char) : Nat := (cs.reverse.takeWhile isBackslash).length

/-- The backward backslash-counting loop of the Go scanner: the number of
consecutive backslashes immediately before position `i`. -/
def countBackslashesBefore (s : List Char) (i : Nat) : Nat := trailingBackslashes (s.take i)

/-- The brace-matching scan of `extractJSONFromClaudeResult`: `s` is the
whole (preprocessed) string, the first list argument is the suffix still to
scan, `i` the absolute position of its head, then the brace depth and the
inside-string flag.  Returns the exclusive end position of the object. -/
def scanGo (s : List Char) : List Char → Nat → Int → Bool → Option Nat
  | [], _, _, _ => none
  | c :: rest, i, depth, inString =>
    if c = '"' then
      scanGo s rest (i + 1) depth
        (if countBackslashesBefore s i % 2 = 0 then !inString else inString)
    else if inString then scanGo s rest (i + 1) depth inString
    else if c = '{' then scanGo s rest (i + 1) (depth + 1) inString
    else if c = '}' then
      if depth - 1 = 0 then some (i + 1) else scanGo s rest (i + 1) (depth - 1) inString
    else scanGo s rest (i + 1) depth inString

/-- The two failure modes of the extractor. -/
inductive ExtractError where
  | noObject (r : List Char)
  | incomplete (r : List Char)
deriving DecidableEq, Repr

/-- Go `extractJSONFromClaudeResult`. -/
def extractJSONFromClaudeResult (x : List Char) : Except ExtractError (List Char) :=
  let r := preprocessResult x
  match indexOfBrace r with
  | none => .error (.noObject r)
  | some start =>
    match scanGo r (r.drop start) start 0 false with
    | none => .error (.incomplete r)
    | some e => .ok ((r.drop start).take (e - start))

/-- Specification-side scanner state: brace depth, inside-string flag, and
the running count of consecutive backslashes just seen. -/
structure ScanState where
  depth : Int
  inString : Bool
  bsRun : Nat
deriving DecidableEq, Repr

/-- Specification-side scanner transition. -/
def scanStep (st : ScanState) (c : Char) : ScanState :=
  if c = '"' then
    { depth := st.depth,
      inString := if st.bsRun % 2 = 0 then !st.inString else st.inString, bsRun := 0 }
  else if c = '\\' then { st with bsRun := st.bsRun + 1 }
  else if st.inString then { st with bsRun := 0 }
  else if c = '{' then { depth := st.depth + 1, inString := st.inString, bsRun := 0 }
  else if c = '}' then { depth := st.depth - 1, inString := st.inString, bsRun := 0 }
  else { st with bsRun := 0 }

def initScanState : ScanState := { depth := 0, inString := false, bsRun := 0 }

/-- The scanner state after consuming the first `k` characters of `sub`. -/
def stateAfter (sub : List Char) (k : Nat) : ScanState :=
  (sub.take k).foldl scanStep initScanState

/-- Specification-side end search: the first prefix length (after `k`) at
which the depth returns to zero. -/
def specEndGo (sub : List Char) : List Char → Nat → Option Nat
  | [], _ => none
  | _ :: rest, k =>
    if (stateAfter sub (k + 1)).depth = 0 then some (k + 1) else specEndGo sub rest (k + 1)

theorem indexOfBrace_none_iff (r : List Char) : indexOfBrace r = none ↔ '{' ∉ r := by
  induction r with
  | nil => simp [indexOfBrace]
  | cons c rest ih =>
    rw [indexOfBrace]
    by_cases hc : c = '{'
    · simp [hc]
    · rw [if_neg hc]
      constructor
      · intro h
        rw [Option.map_eq_none'] at h
        simp only [List.mem_cons, not_or]
        exact ⟨fun he => hc he.symm, ih.mp h⟩
      · intro h
        simp only [List.mem_cons, not_or] at h
        rw [Option.map_eq_none']
        exact ih.mpr h.2

theorem indexOfBrace_some (r : List Char) (start : Nat) (h : indexOfBrace r = some start) :
    r[start]? = some '{' ∧ ∀ j, j < start → r[j]? ≠ some '{' := by
  induction r generalizing start with
  | nil => cases h
  | cons c rest ih =>
    rw [indexOfBrace] at h
    by_cases hc : c = '{'
    · rw [if_pos hc] at h
      cases h
      exact ⟨by simp [hc], fun j hj => by omega⟩
    · rw [if_neg hc] at h
      obtain ⟨s2, hs2, rfl⟩ := Option.map_eq_some'.mp h
      obtain ⟨h1, h2⟩ := ih s2 hs2
      refine ⟨by simpa using h1, ?_⟩
      intro j hj
      cases j with
      | zero => simpa using fun he => hc he
      | succ j2 => simpa using h2 j2 (by omega)

theorem takeWhile_append_all (p : Char → Bool) (xs ys : List Char) :
    (xs ++ ys).takeWhile p = if xs.all p then xs ++ ys.takeWhile p else xs.takeWhile p := by
  induction xs with
  | nil => simp
  | cons x xt ih =>
    rw [List.cons_append, List.takeWhile_cons, List.takeWhile_cons, List.all_cons]
    cases hx : p x with
    | false => simp
    | true =>
      rw [ih]
      by_cases ha : xt.all p = true
      · simp [ha]
      · simp only [Bool.not_eq_true] at ha
        simp [ha]

theorem trailingBackslashes_append (xs ys : List Char) (h : ys.all isBackslash = false) :
    trailingBackslashes (xs ++ ys) = trailingBackslashes ys := by
  rw [trailingBackslashes, trailingBackslashes, List.reverse_append, takeWhile_append_all]
  rw [List.all_reverse, h]
  simp

theorem trailingBackslashes_cons (c : Char) (rest : List Char) :
    trailingBackslashes (c :: rest) =
      if rest.all isBackslash then
        (if isBackslash c then rest.length + 1 else rest.length)
      else trailingBackslashes rest := by
  rw [trailingBackslashes, show (c :: rest).reverse = rest.reverse ++ [c] by simp,
    takeWhile_append_all, List.all_reverse]
  by_cases ha : rest.all isBackslash = true
  · rw [if_pos ha, if_pos ha, List.length_append, List.length_reverse, List.takeWhile_cons]
    cases hc : isBackslash c <;> simp
  · simp only [Bool.not_eq_true] at ha
    rw [ha]
    simp [trailingBackslashes]

theorem scanStep_bsRun (st : ScanState) (c : Char) :
    (scanStep st c).bsRun = if c = '\\' then st.bsRun + 1 else 0 := by
  rw [scanStep]
  split_ifs with h1 h2 h3 h4 h5 <;> simp_all

theorem foldl_scanStep_bsRun (cs : List Char) (st : ScanState) :
    (cs.foldl scanStep st).bsRun =
      if cs.all isBackslash then st.bsRun + cs.length else trailingBackslashes cs := by
  induction cs generalizing st with
  | nil => simp [trailingBackslashes]
  | cons c rest ih =>
    rw [List.foldl_cons, ih, List.all_cons, trailingBackslashes_cons, scanStep_bsRun]
    by_cases hc : c = '\\'
    · subst hc
      have hb : isBackslash '\\' = true := by simp [isBackslash]
      by_cases ha : rest.all isBackslash = true
      · simp [hb, ha]
        omega
      · simp only [Bool.not_eq_true] at ha
        simp [hb, ha]
    · have hb : isBackslash c = false := by simp [isBackslash, hc]
      by_cases ha : rest.all isBackslash = true
      · simp [hb, ha, hc]
      · simp only [Bool.not_eq_true] at ha
        simp [hb, ha, hc]

theorem stateAfter_zero (sub : List Char) : stateAfter sub 0 = initScanState := rfl

theorem stateAfter_succ (sub : List Char) (k : Nat) (c : Char) (hc : sub[k]? = some c) :
    stateAfter sub (k + 1) = scanStep (stateAfter sub k) c := by
  rw [stateAfter, stateAfter, List.take_succ, hc]
  rw [List.foldl_append]
  rfl

theorem getElem?_zero_cons (l : List Char) (c : Char) (h : l[0]? = some c) :
    ∃ t, l = c :: t := by
  cases l with
  | nil => cases h
  | cons x t =>
    simp only [List.getElem?_cons_zero, Option.some.injEq] at h
    exact ⟨t, by rw [h]⟩

theorem take_not_all_backslash (sub : List Char) (k : Nat) (h0 : sub[0]? = some '{')
    (hk : 0 < k) : (sub.take k).all isBackslash = false := by
  obtain ⟨t, rfl⟩ := getElem?_zero_cons sub '{' h0
  cases k with
  | zero => omega
  | succ k2 =>
    rw [List.take_succ_cons, List.all_cons]
    simp [isBackslash]

theorem stateAfter_bsRun (sub : List Char) (k : Nat) (h0 : sub[0]? = some '{') (hk : 0 < k) :
    (stateAfter sub k).bsRun = trailingBackslashes (sub.take k) := by
  rw [stateAfter, foldl_scanStep_bsRun, take_not_all_backslash sub k h0 hk]
  simp

theorem countBackslashesBefore_eq_bsRun (s : List Char) (start k : Nat)
    (hs : s[start]? = some '{') (hk : 0 < k) :
    countBackslashesBefore s (start + k) = (stateAfter (s.drop start) k).bsRun := by
  have h0 : (s.drop start)[0]? = some '{' := by
    rw [List.getElem?_drop]
    simpa using hs
  rw [countBackslashesBefore, List.take_add, stateAfter_bsRun (s.drop start) k h0 hk]
  rw [trailingBackslashes_append _ _ (take_not_all_backslash (s.drop start) k h0 hk)]

theorem scanStep_quote (st : ScanState) :
    scanStep st '"' =
      { depth := st.depth,
        inString := if st.bsRun % 2 = 0 then !st.inString else st.inString,
        bsRun := 0 } := by
  rw [scanStep, if_pos rfl]

theorem scanStep_inStr (st : ScanState) (c : Char) (hq : c ≠ '"') (hs : st.inString = true) :
    (scanStep st c).depth = st.depth ∧ (scanStep st c).inString = st.inString := by
  rw [scanStep]
  split_ifs <;> simp_all

theorem scanStep_open (st : ScanState) (hs : st.inString = false) :
    scanStep st '{' = { depth := st.depth + 1, inString := st.inString, bsRun := 0 } := by
  rw [scanStep, if_neg (by decide : ¬('{' : Char) = '"'),
    if_neg (by decide : ¬('{' : Char) = '\\')]
  rw [hs]
  rw [if_neg (by decide : ¬false = true), if_pos rfl]

theorem scanStep_close (st : ScanState) (hs : st.inString = false) :
    scanStep st '}' = { depth := st.depth - 1, inString := st.inString, bsRun := 0 } := by
  rw [scanStep, if_neg (by decide : ¬('}' : Char) = '"'),
    if_neg (by decide : ¬('}' : Char) = '\\')]
  rw [hs]
  rw [if_neg (by decide : ¬false = true), if_neg (by decide : ¬('}' : Char) = '{'),
    if_pos rfl]

theorem scanStep_preserve (st : ScanState) (c : Char) (hq : c ≠ '"')
    (hob : c ≠ '{') (hcb : c ≠ '}') :
    (scanStep st c).depth = st.depth ∧ (scanStep st c).inString = st.inString := by
  rw [scanStep]
  split_ifs <;> simp_all

theorem scanStep_depth_mem (st : ScanState) (c : Char) :
    (scanStep st c).depth = st.depth ∨ (scanStep st c).depth = st.depth + 1 ∨
      (scanStep st c).depth = st.depth - 1 := by
  rw [scanStep]
  split_ifs <;> simp

theorem scanStep_depth_lt (st : ScanState) (c : Char)
    (h : (scanStep st c).depth < st.depth) : c = '}' ∧ st.inString = false := by
  rw [scanStep] at h
  split_ifs at h with h1 h2 h3 h4 h5 <;> simp_all <;> omega

theorem specEndGo_some (sub : List Char) (rest : List Char) :
    ∀ (k e : Nat), rest = sub.drop k → specEndGo sub rest k = some e →
      k < e ∧ e ≤ sub.length ∧ (stateAfter sub e).depth = 0 ∧
        ∀ j, k < j → j < e → (stateAfter sub j).depth ≠ 0 := by
  induction rest with
  | nil => intro k e _ h; cases h
  | cons c rest2 ih =>
    intro k e hrest h
    have hk : k < sub.length := by
      by_contra hge
      push_neg at hge
      rw [List.drop_eq_nil_of_le hge] at hrest
      cases hrest
    have hrest2 : rest2 = sub.drop (k + 1) := by
      have hd : (sub.drop k).drop 1 = sub.drop (k + 1) := by rw [List.drop_drop]
      rw [← hrest] at hd
      simpa using hd
    rw [specEndGo] at h
    by_cases hz : (stateAfter sub (k + 1)).depth = 0
    · rw [if_pos hz] at h
      cases h
      exact ⟨by omega, by omega, hz, fun j hj1 hj2 => by omega⟩
    · rw [if_neg hz] at h
      obtain ⟨h1, h2, h3, h4⟩ := ih (k + 1) e hrest2 h
      refine ⟨by omega, h2, h3, fun j hj1 hj2 => ?_⟩
      rcases Nat.lt_or_ge (k + 1) j with hje | hje
      · exact h4 j hje hj2
      · have : j = k + 1 := by omega
        rw [this]
        exact hz

theorem specEndGo_none (sub : List Char) (rest : List Char) :
    ∀ k, rest = sub.drop k → specEndGo sub rest k = none →
      ∀ j, k < j → j ≤ sub.length → (stateAfter sub j).depth ≠ 0 := by
  induction rest with
  | nil =>
    intro k hrest _ j hj1 hj2
    have : sub.length ≤ k := by
      by_contra hlt
      push_neg at hlt
      have hne : sub.drop k ≠ [] := by
        intro hnil
        rw [List.drop_eq_nil_iff] at hnil
        omega
      exact hne hrest.symm
    omega
  | cons c rest2 ih =>
    intro k hrest h j hj1 hj2
    have hrest2 : rest2 = sub.drop (k + 1) := by
      have hd : (sub.drop k).drop 1 = sub.drop (k + 1) := by rw [List.drop_drop]
      rw [← hrest] at hd
      simpa using hd
    rw [specEndGo] at h
    by_cases hz : (stateAfter sub (k + 1)).depth = 0
    · rw [if_pos hz] at h
      cases h
    · rw [if_neg hz] at h
      rcases Nat.lt_or_ge (k + 1) j with hje | hje
      · exact ih (k + 1) hrest2 h j hje hj2
      · have : j = k + 1 := by omega
        rw [this]
        exact hz

theorem scanGo_eq_specEndGo (s : List Char) (start : Nat) (hs : s[start]? = some '{')
    (rest : List Char) :
    ∀ (i : Nat) (dep : Int) (ins : Bool), rest = s.drop i → start ≤ i →
      dep = (stateAfter (s.drop start) (i - start)).depth →
      ins = (stateAfter (s.drop start) (i - start)).inString →
      (i = start ∨ 1 ≤ dep) →
      scanGo s rest i dep ins =
        Option.map (fun e => e + start) (specEndGo (s.drop start) rest (i - start)) := by
  induction rest with
  | nil => intro i dep ins _ _ _ _ _; rfl
  | cons c rest2 ih =>
    intro i dep ins hrest hle hdep hins hinv
    have hci : s[i]? = some c := by
      have hd : (s.drop i)[0]? = s[i + 0]? := List.getElem?_drop s i 0
      rw [← hrest] at hd
      simpa using hd.symm
    have hck : (s.drop start)[i - start]? = some c := by
      rw [List.getElem?_drop, show start + (i - start) = i by omega]
      exact hci
    have hrest2i : rest2 = s.drop (i + 1) := by
      have hd2 : (s.drop i).drop 1 = s.drop (i + 1) := by rw [List.drop_drop]
      rw [← hrest] at hd2
      simpa using hd2
    have hstep : stateAfter (s.drop start) (i - start + 1) =
        scanStep (stateAfter (s.drop start) (i - start)) c :=
      stateAfter_succ _ _ _ hck
    have hsucc : (i + 1) - start = i - start + 1 := by omega
    rw [scanGo, specEndGo]
    by_cases hq : c = '"'
    · subst hq
      rw [if_pos rfl]
      have hkpos : 0 < i - start := by
        rcases Nat.eq_zero_or_pos (i - start) with h0 | h0
        · exfalso
          have : i = start := by omega
          rw [this, hs] at hci
          exact absurd (Option.some.inj hci) (by decide)
        · exact h0
      have hd1 : 1 ≤ dep := by
        rcases hinv with h | h
        · omega
        · exact h
      have hbs : countBackslashesBefore s i =
          (stateAfter (s.drop start) (i - start)).bsRun := by
        have h0 := countBackslashesBefore_eq_bsRun s start (i - start) hs hkpos
        rw [show start + (i - start) = i by omega] at h0
        exact h0
      have hnz : ¬ (stateAfter (s.drop start) (i - start + 1)).depth = 0 := by
        rw [hstep, scanStep_quote]
        show ¬ (stateAfter (s.drop start) (i - start)).depth = 0
        omega
      rw [if_neg hnz]
      rw [ih (i + 1) dep
        (if countBackslashesBefore s i % 2 = 0 then !ins else ins)
        hrest2i (by omega)
        (by rw [hsucc, hstep, scanStep_quote, hdep])
        (by rw [hsucc, hstep, scanStep_quote, hbs, hins])
        (Or.inr hd1)]
      rw [hsucc]
    · rw [if_neg hq]
      by_cases hin : ins = true
      · rw [hin, if_pos rfl]
        have hkpos : 0 < i - start := by
          rcases Nat.eq_zero_or_pos (i - start) with h0 | h0
          · exfalso
            have h00 : (stateAfter (s.drop start) (i - start)).inString = false := by
              rw [h0, stateAfter_zero]
              rfl
            rw [← hins, hin] at h00
            cases h00
          · exact h0
        have hd1 : 1 ≤ dep := by
          rcases hinv with h | h
          · omega
          · exact h
        have hpres := scanStep_inStr (stateAfter (s.drop start) (i - start)) c hq
          (by rw [← hins, hin])
        have hnz : ¬ (stateAfter (s.drop start) (i - start + 1)).depth = 0 := by
          rw [hstep, hpres.1, ← hdep]
          omega
        rw [if_neg hnz]
        rw [ih (i + 1) dep true hrest2i (by omega)
          (by rw [hsucc, hstep, hpres.1, hdep])
          (by rw [hsucc, hstep, hpres.2, ← hins, hin])
          (Or.inr hd1)]
        rw [hsucc]
      · have hin2 : ins = false := by
          cases hb : ins
          · rfl
          · exact absurd hb hin
        rw [hin2, if_neg (by decide : ¬false = true)]
        have hinsf : (stateAfter (s.drop start) (i - start)).inString = false := by
          rw [← hins, hin2]
        by_cases hob : c = '{'
        · subst hob
          rw [if_pos rfl]
          have hnz : ¬ (stateAfter (s.drop start) (i - start + 1)).depth = 0 := by
            rw [hstep, scanStep_open _ hinsf]
            show ¬ (stateAfter (s.drop start) (i - start)).depth + 1 = 0
            rcases hinv with h | h
            · rw [show i - start = 0 by omega, stateAfter_zero]
              decide
            · rw [← hdep]
              omega
          rw [if_neg hnz]
          rw [ih (i + 1) (dep + 1) false hrest2i (by omega)
            (by rw [hsucc, hstep, scanStep_open _ hinsf, hdep])
            (by rw [hsucc, hstep, scanStep_open _ hinsf, hinsf])
            (Or.inr (by
              rcases hinv with h | h
              · have : dep = 0 := by
                  rw [hdep, show i - start = 0 by omega, stateAfter_zero]
                  rfl
                omega
              · omega))]
          rw [hsucc]
        · rw [if_neg hob]
          by_cases hcb : c = '}'
          · subst hcb
            rw [if_pos rfl]
            have histart : ¬ i = start := by
              intro he
              rw [he, hs] at hci
              exact absurd (Option.some.inj hci) (by decide)
            have hd1 : 1 ≤ dep := by
              rcases hinv with h | h
              · exact absurd h histart
              · exact h
            have hdk1 : (stateAfter (s.drop start) (i - start + 1)).depth = dep - 1 := by
              rw [hstep, scanStep_close _ hinsf, ← hdep]
            by_cases hz : dep - 1 = 0
            · rw [if_pos hz, if_pos (by rw [hdk1]; exact hz)]
              rw [Option.map_some']
              congr 1
              omega
            · rw [if_neg hz, if_neg (by rw [hdk1]; exact hz)]
              rw [ih (i + 1) (dep - 1) false hrest2i (by omega)
                (by rw [hsucc, hdk1])
                (by rw [hsucc, hstep, scanStep_close _ hinsf, hinsf])
                (Or.inr (by omega))]
              rw [hsucc]
          · rw [if_neg hcb]
            have histart : ¬ i = start := by
              intro he
              rw [he, hs] at hci
              exact absurd (Option.some.inj hci).symm hob
            have hd1 : 1 ≤ dep := by
              rcases hinv with h | h
              · exact absurd h histart
              · exact h
            have hpres := scanStep_preserve (stateAfter (s.drop start) (i - start)) c hq hob hcb
            have hnz : ¬ (stateAfter (s.drop start) (i - start + 1)).depth = 0 := by
              rw [hstep, hpres.1, ← hdep]
              omega
            rw [if_neg hnz]
            rw [ih (i + 1) dep false hrest2i (by omega)
              (by rw [hsucc, hstep, hpres.1, hdep])
              (by rw [hsucc, hstep, hpres.2, hinsf])
              (Or.inr hd1)]
            rw [hsucc]

/-- The scan started by the extractor at the first brace agrees with the
specification-side end search. -/
theorem scanGo_start (r : List Char) (start : Nat) (hs : r[start]? = some '{') :
    scanGo r (r.drop start) start 0 false =
      Option.map (fun e => e + start) (specEndGo (r.drop start) (r.drop start) 0) := by
  have h := scanGo_eq_specEndGo r start hs (r.drop start) start 0 false rfl (Nat.le_refl _)
    (by rw [Nat.sub_self, stateAfter_zero]; rfl)
    (by rw [Nat.sub_self, stateAfter_zero]; rfl)
    (Or.inl rfl)
  rw [h, Nat.sub_self]

deriving instance DecidableEq for Except

theorem stateAfter_take (sub : List Char) (k j : Nat) (hj : j ≤ k) :
    stateAfter (sub.take k) j = stateAfter sub j := by
  rw [stateAfter, stateAfter, List.take_take, Nat.min_eq_left hj]

theorem depth_one (sub : List Char) (h0 : sub[0]? = some '{') :
    (stateAfter sub 1).depth = 1 ∧ (stateAfter sub 1).inString = false := by
  rw [stateAfter_succ sub 0 '{' h0, stateAfter_zero, scanStep_open initScanState rfl]
  exact ⟨by decide, rfl⟩

theorem min_window_depth (sub : List Char) (k : Nat) (h0 : sub[0]? = some '{')
    (hkl : k ≤ sub.length) (hmin : ∀ j, 0 < j → j < k → (stateAfter sub j).depth ≠ 0) :
    ∀ j, 0 < j → j < k → 1 ≤ (stateAfter sub j).depth := by
  intro j
  induction j with
  | zero => intro h; omega
  | succ j2 ihj =>
    intro _ hj2
    rcases Nat.eq_zero_or_pos j2 with hzz | hpos
    · subst hzz
      exact le_of_eq (depth_one sub h0).1.symm
    · have hd2 : 1 ≤ (stateAfter sub j2).depth := ihj hpos (by omega)
      have hj2len : j2 < sub.length := by omega
      have hc : sub[j2]? = some (sub.get ⟨j2, hj2len⟩) := by
        rw [List.getElem?_eq_getElem hj2len]
        rfl
      have hstep := stateAfter_succ sub j2 _ hc
      have hmem := scanStep_depth_mem (stateAfter sub j2) (sub.get ⟨j2, hj2len⟩)
      have hne := hmin (j2 + 1) (by omega) hj2
      rw [hstep] at hne ⊢
      rcases hmem with h | h | h <;> omega

theorem last_char_close (sub : List Char) (k : Nat) (h0 : sub[0]? = some '{')
    (hk1 : 0 < k) (hkl : k ≤ sub.length)
    (hz : (stateAfter sub k).depth = 0)
    (hmin : ∀ j, 0 < j → j < k → (stateAfter sub j).depth ≠ 0) :
    sub[k - 1]? = some '}' := by
  have hd1 := (depth_one sub h0).1
  have hk2 : 2 ≤ k := by
    by_contra hlt
    push_neg at hlt
    have hk1e : k = 1 := by omega
    rw [hk1e] at hz
    omega
  have hdk1 : 1 ≤ (stateAfter sub (k - 1)).depth :=
    min_window_depth sub k h0 hkl hmin (k - 1) (by omega) (by omega)
  have hklen : k - 1 < sub.length := by omega
  have hc : sub[k - 1]? = some (sub.get ⟨k - 1, hklen⟩) := by
    rw [List.getElem?_eq_getElem hklen]
    rfl
  have hstep := stateAfter_succ sub (k - 1) _ hc
  rw [show k - 1 + 1 = k by omega] at hstep
  have hlt : (scanStep (stateAfter sub (k - 1)) (sub.get ⟨k - 1, hklen⟩)).depth <
      (stateAfter sub (k - 1)).depth := by
    rw [← hstep, hz]
    omega
  have hcl := scanStep_depth_lt _ _ hlt
  rw [hc, hcl.1]

theorem trimSpace_eq_self (o : List Char) (c1 c2 : Char) (h1 : o[0]? = some c1)
    (hc1 : isSpaceGo c1 = false) (h2 : o[o.length - 1]? = some c2)
    (hc2 : isSpaceGo c2 = false) : trimSpace o = o := by
  obtain ⟨t, rfl⟩ := getElem?_zero_cons o c1 h1
  rw [trimSpace, List.dropWhile_cons, hc1, if_neg (by decide : ¬false = true)]
  have hrev0 : (c1 :: t).reverse[0]? = some c2 := by
    rw [← List.head?_eq_getElem?, List.head?_reverse, List.getLast?_eq_getElem?]
    exact h2
  obtain ⟨t2, hrt⟩ := getElem?_zero_cons _ c2 hrev0
  rw [hrt, List.dropWhile_cons, hc2, if_neg (by decide : ¬false = true), ← hrt,
    List.reverse_reverse]

theorem isPrefixOf_cons_cons (a b : Char) (as bs : List Char) :
    (a :: as).isPrefixOf (b :: bs) = (a == b && as.isPrefixOf bs) := rfl

theorem fenceJson_not_prefix_brace (t : List Char) :
    fenceJson.isPrefixOf ('{' :: t) = false := by
  rw [show fenceJson = fenceJson.get ⟨0, by decide⟩ :: fenceJson.drop 1 from by decide,
    isPrefixOf_cons_cons,
    show (fenceJson.get ⟨0, by decide⟩ == '{') = false from by decide, Bool.false_and]

theorem fenceBare_not_prefix_brace (t : List Char) :
    fenceBare.isPrefixOf ('{' :: t) = false := by
  rw [show fenceBare = fenceBare.get ⟨0, by decide⟩ :: fenceBare.drop 1 from by decide,
    isPrefixOf_cons_cons,
    show (fenceBare.get ⟨0, by decide⟩ == '{') = false from by decide, Bool.false_and]

theorem stripFences_brace (t : List Char) : stripFences ('{' :: t) = '{' :: t := by
  rw [stripFences, fenceJson_not_prefix_brace, fenceBare_not_prefix_brace,
    if_neg (by decide : ¬false = true), if_neg (by decide : ¬false = true)]

theorem indexOfBrace_cons_brace (t : List Char) : indexOfBrace ('{' :: t) = some 0 := by
  rw [indexOfBrace, if_pos rfl]

/-- C3: whenever the extractor succeeds, its output is exactly the minimal
balanced prefix starting at the first opening brace of the trimmed,
fence-stripped input — brace depth counted only outside strings, a quote
escaped iff preceded by an odd number of consecutive backslashes — and
re-running the extractor on its own output returns it unchanged. -/
theorem c3_extract_minimal_balanced (x o : List Char)
    (h : extractJSONFromClaudeResult x = .ok o) :
    (∃ start k,
      indexOfBrace (preprocessResult x) = some start ∧
      (preprocessResult x)[start]? = some '{' ∧
      (∀ j, j < start → (preprocessResult x)[j]? ≠ some '{') ∧
      0 < k ∧ k ≤ ((preprocessResult x).drop start).length ∧
      o = ((preprocessResult x).drop start).take k ∧
      (stateAfter ((preprocessResult x).drop start) k).depth = 0 ∧
      (∀ j, 0 < j → j < k → (stateAfter ((preprocessResult x).drop start) j).depth ≠ 0)) ∧
    extractJSONFromClaudeResult o = .ok o := by
  cases hidx : indexOfBrace (preprocessResult x) with
  | none =>
    have hext : extractJSONFromClaudeResult x = .error (.noObject (preprocessResult x)) := by
      rw [extractJSONFromClaudeResult, hidx]
    rw [hext] at h
    simp at h
  | some start =>
    have hbr := indexOfBrace_some (preprocessResult x) start hidx
    cases hscan : scanGo (preprocessResult x) ((preprocessResult x).drop start) start 0 false with
    | none =>
      have hext : extractJSONFromClaudeResult x =
          .error (.incomplete (preprocessResult x)) := by
        simp only [extractJSONFromClaudeResult, hidx, hscan]
      rw [hext] at h
      simp at h
    | some e =>
      have hext : extractJSONFromClaudeResult x =
          .ok (((preprocessResult x).drop start).take (e - start)) := by
        simp only [extractJSONFromClaudeResult, hidx, hscan]
      rw [hext] at h
      simp only [Except.ok.injEq] at h
      have hmap : Option.map (fun e2 => e2 + start)
          (specEndGo ((preprocessResult x).drop start) ((preprocessResult x).drop start) 0) =
            some e := by
        rw [← scanGo_start (preprocessResult x) start hbr.1]
        exact hscan
      obtain ⟨e2, he2, hee⟩ := Option.map_eq_some'.mp hmap
      obtain ⟨h1, h2, h3, h4⟩ :=
        specEndGo_some ((preprocessResult x).drop start) ((preprocessResult x).drop start)
          0 e2 rfl he2
      have ho : o = ((preprocessResult x).drop start).take e2 := by
        rw [← h, show e - start = e2 by omega]
      have hsub0 : ((preprocessResult x).drop start)[0]? = some '{' := by
        rw [List.getElem?_drop]
        simpa using hbr.1
      refine ⟨⟨start, e2, rfl, hbr.1, hbr.2, h1, h2, ho, h3,
        fun j hj1 hj2 => h4 j hj1 hj2⟩, ?_⟩
      have ho0 : o[0]? = some '{' := by
        rw [ho, List.getElem?_take, if_pos h1]
        exact hsub0
      have holen : o.length = e2 := by
        rw [ho, List.length_take]
        omega
      have hlast : ((preprocessResult x).drop start)[e2 - 1]? = some '}' :=
        last_char_close _ e2 hsub0 h1 h2 h3 (fun j hj1 hj2 => h4 j hj1 hj2)
      have holast : o[o.length - 1]? = some '}' := by
        rw [holen, ho, List.getElem?_take, if_pos (by omega)]
        exact hlast
      have htrim : trimSpace o = o := trimSpace_eq_self o '{' '}' ho0 (by decide) holast
        (by decide)
      obtain ⟨t, hot⟩ := getElem?_zero_cons o '{' ho0
      have hstrip : stripFences o = o := by
        rw [hot]
        exact stripFences_brace t
      have hpre : preprocessResult o = o := by
        rw [preprocessResult, htrim, hstrip]
      have hidxo : indexOfBrace o = some 0 := by
        rw [hot]
        exact indexOfBrace_cons_brace t
      have hstate : ∀ j, j ≤ e2 →
          stateAfter o j = stateAfter ((preprocessResult x).drop start) j := by
        intro j hj
        rw [ho]
        exact stateAfter_take _ e2 j hj
      have hspec : specEndGo o o 0 = some e2 := by
        cases hsp : specEndGo o o 0 with
        | none =>
          exfalso
          have hall := specEndGo_none o o 0 rfl hsp
          have hcon := hall e2 h1 (by omega)
          rw [hstate e2 (Nat.le_refl _)] at hcon
          exact hcon h3
        | some e3 =>
          obtain ⟨g1, g2, g3, g4⟩ := specEndGo_some o o 0 e3 rfl hsp
          have he3 : e3 = e2 := by
            rcases Nat.lt_or_ge e3 e2 with hlt | hge
            · exfalso
              rw [hstate e3 (by omega)] at g3
              exact h4 e3 g1 hlt g3
            · omega
          rw [he3]
      have hscano : scanGo o o 0 0 false = some e2 := by
        have hstart0 := scanGo_start o 0 ho0
        rw [List.drop_zero] at hstart0
        rw [hstart0, hspec, Option.map_some', Nat.add_zero]
      have htake : o.take e2 = o := by
        rw [← holen, List.take_length]
      simp only [extractJSONFromClaudeResult, hpre, hidxo, hscano, List.drop_zero,
        Nat.sub_zero, htake]

/-- Concrete input: prose, a json fence, nested braces inside a string value,
and a backslash-escaped quote adjacent to a brace. -/
def xC3 : List Char :=
  ("Sure! Here it is:\n```json\n\x7b\"a\": \"x\x7b\\\"\", \"b\": " ++
    "\x7b\"c\": 1\x7d\x7d extra\n```").toList

/-- The minimal balanced object inside `xC3`. -/
def oC3 : List Char :=
  "\x7b\"a\": \"x\x7b\\\"\", \"b\": \x7b\"c\": 1\x7d\x7d".toList

theorem c3_extract_minimal_balanced_witness :
    extractJSONFromClaudeResult xC3 = .ok oC3 ∧
      extractJSONFromClaudeResult oC3 = .ok oC3 := by
  have hx : extractJSONFromClaudeResult xC3 = .ok oC3 := by decide
  exact ⟨hx, (c3_extract_minimal_balanced xC3 oC3 hx).2⟩

/-- C4: the extractor fails with the "no JSON object found" error exactly
when the trimmed, fence-stripped input contains no opening brace; it fails
with the "incomplete JSON object" error exactly when a first brace exists
but the depth never returns to zero; and it succeeds in every remaining
case. -/
theorem c4_extract_failure_characterization (x : List Char) :
    (extractJSONFromClaudeResult x = .error (.noObject (preprocessResult x)) ↔
      '{' ∉ preprocessResult x) ∧
    (extractJSONFromClaudeResult x = .error (.incomplete (preprocessResult x)) ↔
      ∃ start, indexOfBrace (preprocessResult x) = some start ∧
        ∀ j, 0 < j → j ≤ ((preprocessResult x).drop start).length →
          (stateAfter ((preprocessResult x).drop start) j).depth ≠ 0) ∧
    ((∃ o, extractJSONFromClaudeResult x = .ok o) ↔
      ∃ start, indexOfBrace (preprocessResult x) = some start ∧
        ∃ j, 0 < j ∧ j ≤ ((preprocessResult x).drop start).length ∧
          (stateAfter ((preprocessResult x).drop start) j).depth = 0) := by
  cases hidx : indexOfBrace (preprocessResult x) with
  | none =>
    have hext : extractJSONFromClaudeResult x = .error (.noObject (preprocessResult x)) := by
      rw [extractJSONFromClaudeResult, hidx]
    refine ⟨?_, ?_, ?_⟩
    · rw [hext]
      constructor
      · intro _
        exact (indexOfBrace_none_iff _).mp hidx
      · intro _
        rfl
    · rw [hext]
      constructor
      · intro hcontra
        simp at hcontra
      · rintro ⟨start, hstart, -⟩
        cases hstart
    · rw [hext]
      constructor
      · rintro ⟨o, ho⟩
        simp at ho
      · rintro ⟨start, hstart, -⟩
        cases hstart
  | some start =>
    have hbr := indexOfBrace_some _ start hidx
    have hmem : '{' ∈ preprocessResult x := List.getElem?_mem hbr.1
    cases hscan : scanGo (preprocessResult x) ((preprocessResult x).drop start) start 0 false with
    | none =>
      have hext : extractJSONFromClaudeResult x =
          .error (.incomplete (preprocessResult x)) := by
        simp only [extractJSONFromClaudeResult, hidx, hscan]
      have hnone : specEndGo ((preprocessResult x).drop start)
          ((preprocessResult x).drop start) 0 = none := by
        have hm := scanGo_start (preprocessResult x) start hbr.1
        rw [hscan] at hm
        cases hsp : specEndGo ((preprocessResult x).drop start)
            ((preprocessResult x).drop start) 0 with
        | none => rfl
        | some e2 =>
          rw [hsp, Option.map_some'] at hm
          cases hm
      have hall := specEndGo_none _ _ 0 rfl hnone
      refine ⟨?_, ?_, ?_⟩
      · rw [hext]
        constructor
        · intro hcontra
          simp at hcontra
        · intro hno
          exact absurd hmem hno
      · rw [hext]
        constructor
        · intro _
          exact ⟨start, rfl, fun j hj1 hj2 => hall j hj1 hj2⟩
        · intro _
          rfl
      · rw [hext]
        constructor
        · rintro ⟨o, ho⟩
          simp at ho
        · rintro ⟨start2, hstart2, j, hj1, hj2, hj3⟩
          injection hstart2 with hse
          subst hse
          exact absurd hj3 (hall j hj1 hj2)
    | some e =>
      have hext : extractJSONFromClaudeResult x =
          .ok (((preprocessResult x).drop start).take (e - start)) := by
        simp only [extractJSONFromClaudeResult, hidx, hscan]
      have hmap : Option.map (fun e2 => e2 + start)
          (specEndGo ((preprocessResult x).drop start)
            ((preprocessResult x).drop start) 0) = some e := by
        rw [← scanGo_start (preprocessResult x) start hbr.1]
        exact hscan
      obtain ⟨e2, he2, hee⟩ := Option.map_eq_some'.mp hmap
      obtain ⟨h1, h2, h3, h4⟩ := specEndGo_some ((preprocessResult x).drop start)
        ((preprocessResult x).drop start) 0 e2 rfl he2
      refine ⟨?_, ?_, ?_⟩
      · rw [hext]
        constructor
        · intro hcontra
          simp at hcontra
        · intro hno
          exact absurd hmem hno
      · rw [hext]
        constructor
        · intro hcontra
          simp at hcontra
        · rintro ⟨start2, hstart2, hall⟩
          injection hstart2 with hse
          subst hse
          exact absurd h3 (hall e2 h1 h2)
      · constructor
        · intro _
          exact ⟨start, rfl, e2, h1, h2, h3⟩
        · intro _
          exact ⟨_, hext⟩

theorem c4_extract_failure_characterization_witness :
    extractJSONFromClaudeResult ("no json at all".toList) =
        .error (.noObject (preprocessResult ("no json at all".toList))) ∧
      (∃ start, indexOfBrace (preprocessResult ("open \x7b only".toList)) = some start ∧
        ∀ j, 0 < j → j ≤ ((preprocessResult ("open \x7b only".toList)).drop start).length →
          (stateAfter ((preprocessResult ("open \x7b only".toList)).drop start) j).depth ≠ 0) :=
  ⟨(c4_extract_failure_characterization _).1.mpr (by decide),
   (c4_extract_failure_characterization _).2.1.mp (by decide)⟩

end Revi
